import Mathlib

/-!
# Verification of the SQL Guardrail and Query Router

A shallow embedding, over `List Char`, of the two core components of the
repository:

* `src/core/guardrails.py` — `sanitize_sql` (statement-safety sanitizer), and
* `src/services/query_router.py` — `QueryRouter.route_question`.

Strings are modelled as `List Char` (ASCII; the repository only handles ASCII
SQL and English questions).  Python regular expressions are modelled by
hand-rolled matchers whose structure mirrors the concrete pattern, or — for
the router's fixed pattern tables — by a small regular-expression datatype
with a fuel-bounded backtracking existence matcher.  Only match *existence*
is ever consumed by the code (`re.match(...)`/`re.search(...)` used in boolean
position), so greedy/lazy distinctions of the source patterns are irrelevant
and are not modelled.
-/

/-- ASCII whitespace, exactly the characters Python `\s` and `str.strip()`
recognise on ASCII text: space, tab, newline, carriage return, vertical tab,
form feed. -/
def isSpaceChar (c : Char) : Bool :=
  c = ' ' || c = '\t' || c = '\n' || c = '\r' || c = Char.ofNat 11 || c = Char.ofNat 12

/-- ASCII decimal digit, Python `\d` on ASCII text. -/
def isDigitChar (c : Char) : Bool :=
  '0' ≤ c && c ≤ '9'

/-- ASCII word character, Python `\w` on ASCII text: letters, digits, underscore. -/
def isWordChar (c : Char) : Bool :=
  ('a' ≤ c && c ≤ 'z') || ('A' ≤ c && c ≤ 'Z') || isDigitChar c || c = '_'

/-- ASCII lower-casing, Python `str.lower()` on ASCII text. -/
def asciiLower (c : Char) : Char :=
  if 'A' ≤ c && c ≤ 'Z' then Char.ofNat (c.toNat + 32) else c

/-- Case-insensitive character comparison (the `re.IGNORECASE` flag). -/
def charCI (a b : Char) : Bool :=
  asciiLower a = asciiLower b

/-- The backquote character stripped by `sql.strip().strip("\x60")`. -/
def btChar : Char := Char.ofNat 96

/-- `startsWithCI pat s`: `s` begins with the characters of `pat`,
case-insensitively. -/
def startsWithCI : List Char → List Char → Bool
  | [], _ => true
  | _ :: _, [] => false
  | p :: ps, c :: cs => charCI p c && startsWithCI ps cs

/-- Drop matching characters from the right end of a list
(`str.rstrip` for a character-class argument). -/
def rdropWhile (p : Char → Bool) (l : List Char) : List Char :=
  (l.reverse.dropWhile p).reverse

/-- Python `str.strip()`: remove whitespace from both ends. -/
def pyStrip (l : List Char) : List Char :=
  rdropWhile isSpaceChar (l.dropWhile isSpaceChar)

/-- Python `str.strip("\x60")`: remove backquotes from both ends. -/
def stripBT (l : List Char) : List Char :=
  rdropWhile (fun c => c = btChar) (l.dropWhile (fun c => c = btChar))

/-- Python `str.rstrip(";")`: remove semicolons from the right end. -/
def rstripSemi (l : List Char) : List Char :=
  rdropWhile (fun c => c = ';') l

/-- `re.sub(r"^sql\s*\n", "", s, flags=re.IGNORECASE)`.

The pattern is anchored at the start (no `re.MULTILINE`), so at most one
replacement happens.  A match consists of the letters `sql`
(case-insensitively) followed by a whitespace run ending in a newline; the
backtracking greedy `\s*\n` makes the match extend through the *last* newline
of the maximal whitespace run after `sql`. -/
def subSqlTag (s : List Char) : List Char :=
  if startsWithCI ['s', 'q', 'l'] s then
    let rest := s.drop 3
    let run := rest.takeWhile isSpaceChar
    if run.contains '\n' then
      -- drop through the last newline of the run
      let tailNoNl := (run.reverse.takeWhile (fun c => c ≠ '\n')).length
      rest.drop (run.length - tailNoNl)
    else s
  else s

/-- The artifact-stripping pipeline of `sanitize_sql`, mirroring
```
s = sql.strip().strip("\x60")
s = re.sub(r"^sql\s*\n", "", s, flags=re.IGNORECASE).strip()
s = s.rstrip(";").strip()
```
-/
def cleanSql (sql : List Char) : List Char :=
  pyStrip (rstripSemi (pyStrip (subSqlTag (stripBT (pyStrip sql)))))

/-! ## The `ALLOWED_SELECT` anchor

`re.compile(r"^\s*(WITH\s+.+?AS\s*\(.*?\)\s*)*SELECT\b", re.IGNORECASE | re.DOTALL)`
used via `.match`, i.e. anchored at the start of the string and only tested
for existence of a match.  The matcher below searches the same language:
optional whitespace, then zero or more `WITH … AS ( … ) `-groups, then
`SELECT` at a word boundary.  Because only existence matters, the lazy
quantifiers `.+?`/`.*?` are modelled as nondeterministic splits, and each
`\s*`/`\s+` that is followed by a non-whitespace-compatible continuation is
resolved deterministically. -/

/-- Word boundary after a word character: the rest of the input must be empty
or start with a non-word character. -/
def boundaryOk : List Char → Bool
  | [] => true
  | c :: _ => !isWordChar c

/-- `SELECT\b` at the head of the input (case-insensitive). -/
def selectTail (u : List Char) : Bool :=
  startsWithCI ['s', 'e', 'l', 'e', 'c', 't'] u && boundaryOk (u.drop 6)

/-- `\s*` then the continuation `k`: try the continuation after skipping any
prefix of the leading whitespace run. -/
def cteTail (k : List Char → Bool) : List Char → Bool
  | [] => k []
  | c :: z => k (c :: z) || (isSpaceChar c && cteTail k z)

/-- `.*?\)` then `\s*` then the continuation: nondeterministically choose the
closing parenthesis, then `cteTail`. -/
def closeSearch (k : List Char → Bool) : List Char → Bool
  | [] => false
  | c :: z => (c = ')' && cteTail k z) || closeSearch k z

/-- `AS\s*\(` then `closeSearch`: the literal `AS`, a whitespace run, an
opening parenthesis.  (`\s*` followed by the literal `(` forces the
parenthesis to terminate the whitespace run.) -/
def asParen (k : List Char → Bool) (w : List Char) : Bool :=
  startsWithCI ['a', 's'] w &&
    (match (w.drop 2).dropWhile isSpaceChar with
     | g :: w3 => g = '(' && closeSearch k w3
     | [] => false)

/-- `.+?` (at least one arbitrary character, `re.DOTALL`) then `asParen`:
nondeterministically choose how much the dot consumes. -/
def cteAfter (k : List Char → Bool) : List Char → Bool
  | [] => false
  | _ :: v => asParen k v || cteAfter k v

/-- `(WITH\s+.+?AS\s*\(.*?\)\s*)*SELECT\b`, with fuel bounding the number of
`WITH`-group iterations (each iteration consumes at least ten characters, so
`length + 1` fuel is always sufficient). -/
def cteStarF : Nat → List Char → Bool
  | 0, _ => false
  | fuel + 1, u =>
    selectTail u ||
      (startsWithCI ['w', 'i', 't', 'h'] u &&
        (match u.drop 4 with
         | c :: v => isSpaceChar c && cteAfter (cteStarF fuel) v
         | [] => false))

/-- `ALLOWED_SELECT.match(s)` viewed as a boolean.  The leading `^\s*` is
resolved by skipping the maximal whitespace run: both `SELECT` and `WITH`
begin with a letter, so stopping inside the run can never produce a match. -/
def anchorMatches (s : List Char) : Bool :=
  cteStarF (s.length + 1) (s.dropWhile isSpaceChar)

/-! ## The forbidden-keyword scan

`re.search(r"\b(INSERT|UPDATE|DELETE|DROP|ALTER|TRUNCATE|ATTACH|DETACH|PRAGMA)\b",
s, flags=re.IGNORECASE)` in boolean position. -/

/-- The denylisted verbs, lower-cased. -/
def forbiddenKeywords : List (List Char) :=
  [['i','n','s','e','r','t'], ['u','p','d','a','t','e'], ['d','e','l','e','t','e'],
   ['d','r','o','p'], ['a','l','t','e','r'], ['t','r','u','n','c','a','t','e'],
   ['a','t','t','a','c','h'], ['d','e','t','a','c','h'], ['p','r','a','g','m','a']]

/-- Word boundary on the left of a match position: the previous character
(`none` at the start of the string) is absent or a non-word character.  All
scanned keywords start with a letter, so the boundary holds exactly when the
previous character is not a word character. -/
def leftOk : Option Char → Bool
  | none => true
  | some c => !isWordChar c

/-- One keyword matching at the current position, with both boundaries. -/
def forbHit (prev : Option Char) (u : List Char) : Bool :=
  forbiddenKeywords.any fun kw =>
    startsWithCI kw u && leftOk prev && boundaryOk (u.drop kw.length)

/-- Scan every position of the input, tracking the previous character. -/
def forbScan (prev : Option Char) : List Char → Bool
  | [] => false
  | c :: rest => forbHit prev (c :: rest) || forbScan (some c) rest

/-- `re.search(forbidden, s, flags=re.IGNORECASE)` as a boolean. -/
def containsForbidden (s : List Char) : Bool :=
  forbScan none s

/-! ## The LIMIT clause detector

`re.search(r"\bLIMIT\b\s+\d+", s, flags=re.IGNORECASE)` in boolean position.
After `LIMIT`, `\s+\d+` demands at least one whitespace character and then a
digit immediately after some prefix of the whitespace run; since a digit is
not whitespace, this is equivalent to: the input continues with a nonempty
whitespace run whose first non-whitespace successor is a digit. -/
/-- `\s+\d+` after the keyword: a nonempty whitespace run whose first
non-whitespace successor is a digit. -/
def limitAfter : List Char → Bool
  | [] => false
  | c :: z =>
    isSpaceChar c &&
      (match (c :: z).dropWhile isSpaceChar with
       | d :: _ => isDigitChar d
       | [] => false)

def limitHit (prev : Option Char) (u : List Char) : Bool :=
  startsWithCI ['l', 'i', 'm', 'i', 't'] u && leftOk prev && limitAfter (u.drop 5)

/-- Scan every position of the input for a `LIMIT <n>` clause. -/
def limitScan (prev : Option Char) : List Char → Bool
  | [] => false
  | c :: rest => limitHit prev (c :: rest) || limitScan (some c) rest

/-- `re.search(r"\bLIMIT\b\s+\d+", s, flags=re.IGNORECASE)` as a boolean. -/
def hasLimitClause (s : List Char) : Bool :=
  limitScan none s

/-! ## Decimal rendering of the default limit (Python `f"{default_limit}"`) -/

/-- The decimal digit characters. -/
def digitChar : Nat → Char
  | 0 => '0' | 1 => '1' | 2 => '2' | 3 => '3' | 4 => '4'
  | 5 => '5' | 6 => '6' | 7 => '7' | 8 => '8' | _ => '9'

/-- Decimal representation, fuel-structured so that the kernel can evaluate
it (`fuel` bounds the number of digits; `n + 1` always suffices). -/
def natDigitsAux : Nat → Nat → List Char
  | 0, _ => []
  | fuel + 1, n =>
    if n < 10 then [digitChar n]
    else natDigitsAux fuel (n / 10) ++ [digitChar (n % 10)]

/-- Decimal representation of a natural number, most significant digit first. -/
def natDigits (n : Nat) : List Char :=
  natDigitsAux (n + 1) n

/-- The appended suffix `f" LIMIT {default_limit}"`. -/
def limitSuffix (n : Nat) : List Char :=
  [' ', 'L', 'I', 'M', 'I', 'T', ' '] ++ natDigits n

/-! ## `sanitize_sql`

```
def sanitize_sql(sql: str, default_limit: int = 500) -> tuple[bool, str, str]:
    if not sql or not isinstance(sql, str):
        return False, "", "empty_sql"
    s = sql.strip().strip("\x60")
    s = re.sub(r"^sql\s*\n", "", s, flags=re.IGNORECASE).strip()
    s = s.rstrip(";").strip()
    if not ALLOWED_SELECT.match(s):
        return False, "", "non_select_or_unsafe"
    forbidden = r"\b(INSERT|UPDATE|DELETE|DROP|ALTER|TRUNCATE|ATTACH|DETACH|PRAGMA)\b"
    if re.search(forbidden, s, flags=re.IGNORECASE):
        return False, "", "forbidden_keyword"
    if not re.search(r"\bLIMIT\b\s+\d+", s, flags=re.IGNORECASE):
        s = f"{s} LIMIT {default_limit}"
    return True, s, ""
```

The argument is `Option (List Char)`: `none` models Python `None` (the
`not isinstance(sql, str)` arm is subsumed by typing).  `not sql` on a string
is truth exactly of non-emptiness, so the empty list also returns
`empty_sql`. -/
def sanitize_sql (sql : Option (List Char)) (default_limit : Nat := 500) :
    Bool × List Char × String :=
  match sql with
  | none => (false, [], "empty_sql")
  | some sq =>
    if sq = [] then (false, [], "empty_sql")
    else
      let s := cleanSql sq
      if !anchorMatches s then (false, [], "non_select_or_unsafe")
      else if containsForbidden s then (false, [], "forbidden_keyword")
      else if hasLimitClause s then (true, s, "")
      else (true, s ++ limitSuffix default_limit, "")

/-! ## A small regular-expression engine for the Query Router

`QueryRouter._calculate_pattern_score` runs
`re.search(pattern, question, re.IGNORECASE)` in boolean position over fixed
pattern tables.  Each of those patterns is built from literals, `(?:…|…)`
alternation, `?` options, `\s+`, `\d+`, `\w+` and `\b`.  The engine below is a
fuel-bounded backtracking matcher deciding match existence; fuel bounds the
call depth, which for a match attempt is at most
`(input length + 1) * (pattern size + 1)` since every recursive call either
moves to a structurally smaller pattern or consumes an input character (empty
`star` iterations are pruned, which never loses a match). -/

/-- Character classes appearing in the router patterns. -/
inductive CC where
  | ws   -- `\s`
  | dig  -- `\d`
  | word -- `\w`
  | ch (c : Char)  -- a literal, compared case-insensitively
deriving DecidableEq

/-- Class membership. -/
def ccMatch : CC → Char → Bool
  | .ws, c => isSpaceChar c
  | .dig, c => isDigitChar c
  | .word, c => isWordChar c
  | .ch p, c => charCI p c

/-- Regular expressions over `CC`, with the word-boundary assertion `\b`. -/
inductive RE where
  | eps
  | cls (p : CC)
  | bnd
  | seq (a b : RE)
  | alt (a b : RE)
  | star (a : RE)
deriving DecidableEq

/-- Structural size of a pattern, used only to compute a sufficient fuel. -/
def reSize : RE → Nat
  | .eps => 1
  | .cls _ => 1
  | .bnd => 1
  | .seq a b => reSize a + reSize b + 1
  | .alt a b => reSize a + reSize b + 1
  | .star a => reSize a + 1

/-- `\b`: the previous character and the next character disagree on wordness
(string ends count as non-word). -/
def atBoundary (prev : Option Char) (s : List Char) : Bool :=
  let w : Option Char → Bool := fun oc => match oc with
    | none => false
    | some c => isWordChar c
  w prev != w s.head?

/-- The backtracking existence matcher, in continuation-passing style.  `prev`
is the character before the current position (`none` at the start), needed by
`\b`.  Empty `star` iterations are pruned by the length guard. -/
def reMat : Nat → RE → Option Char → List Char → (Option Char → List Char → Bool) → Bool
  | 0, _, _, _, _ => false
  | fuel + 1, r, prev, s, k =>
    match r with
    | .eps => k prev s
    | .cls p =>
      match s with
      | [] => false
      | c :: s1 => ccMatch p c && reMat fuel .eps (some c) s1 k
    | .bnd => atBoundary prev s && k prev s
    | .seq a b => reMat fuel a prev s fun prev1 s1 => reMat fuel b prev1 s1 k
    | .alt a b => reMat fuel a prev s k || reMat fuel b prev s k
    | .star a =>
      k prev s ||
        reMat fuel a prev s fun prev1 s1 =>
          if s1.length < s.length then reMat fuel (.star a) prev1 s1 k else false

/-- Fuel sufficient for any match attempt of `r` against `s`. -/
def reFuel (r : RE) (s : List Char) : Nat :=
  (s.length + 2) * (reSize r + 2)

/-- Try to match `r` at every position of `s`, threading the previous
character; this is `re.search(r, s)` as a boolean. -/
def reSearchFrom (r : RE) (prev : Option Char) (s : List Char) : Bool :=
  reMat (reFuel r s) r prev s (fun _ _ => true) ||
    match s with
    | [] => false
    | c :: s1 => reSearchFrom r (some c) s1

/-- `bool(re.search(r, s, re.IGNORECASE))`. -/
def reSearch (r : RE) (s : List Char) : Bool :=
  reSearchFrom r none s

/-! Combinators translating the concrete Python pattern syntax. -/

/-- A literal string (matched case-insensitively). -/
def reStr (s : String) : RE :=
  s.data.foldr (fun c r => .seq (.cls (.ch c)) r) .eps

/-- `x+`. -/
def rePlus (r : RE) : RE := .seq r (.star r)

/-- `x?`. -/
def reOpt (r : RE) : RE := .alt r .eps

/-- `\s+`, `\d+`, `\w+`, `\s*`. -/
def reWs1 : RE := rePlus (.cls .ws)
def reDig1 : RE := rePlus (.cls .dig)
def reWord1 : RE := rePlus (.cls .word)

/-- `(?:a|b|…)` over a nonempty list of branches. -/
def reAlts : List RE → RE
  | [] => .eps
  | [r] => r
  | r :: rs => .alt r (reAlts rs)

/-- Alternation of literal strings. -/
def reStrAlt (ss : List String) : RE := reAlts (ss.map reStr)

/-- Concatenation of a list of patterns. -/
def reSeqs : List RE → RE
  | [] => .eps
  | [r] => r
  | r :: rs => .seq r (reSeqs rs)

/-- `self.simple_patterns` of `QueryRouter.__init__`, pattern by pattern. -/
def simple_patterns : List RE :=
  [ -- r'\b(show|list|display|get)\s+(?:me\s+)?(the\s+)?'
    reSeqs [.bnd, reStrAlt ["show", "list", "display", "get"], reWs1,
            reOpt (reSeqs [reStr "me", reWs1]), reOpt (reSeqs [reStr "the", reWs1])],
    -- r'\btop\s+\d+'
    reSeqs [.bnd, reStr "top", reWs1, reDig1],
    -- r'\bbottom\s+\d+'
    reSeqs [.bnd, reStr "bottom", reWs1, reDig1],
    -- r'\bfirst\s+\d+'
    reSeqs [.bnd, reStr "first", reWs1, reDig1],
    -- r'\blast\s+\d+'
    reSeqs [.bnd, reStr "last", reWs1, reDig1],
    -- r'\bhow\s+many'
    reSeqs [.bnd, reStr "how", reWs1, reStr "many"],
    -- r'\bcount\s+(?:of\s+)?'
    reSeqs [.bnd, reStr "count", reWs1, reOpt (reSeqs [reStr "of", reWs1])],
    -- r'\bsum\s+(?:of\s+)?'
    reSeqs [.bnd, reStr "sum", reWs1, reOpt (reSeqs [reStr "of", reWs1])],
    -- r'\baverage\s+(?:of\s+)?'
    reSeqs [.bnd, reStr "average", reWs1, reOpt (reSeqs [reStr "of", reWs1])],
    -- r'\bmax(?:imum)?\s+'
    reSeqs [.bnd, reStr "max", reOpt (reStr "imum"), reWs1],
    -- r'\bmin(?:imum)?\s+'
    reSeqs [.bnd, reStr "min", reOpt (reStr "imum"), reWs1],
    -- r'\bwhat\s+(?:is|are)\s+the\s+(?:name|title|value|amount)'
    reSeqs [.bnd, reStr "what", reWs1, reStrAlt ["is", "are"], reWs1, reStr "the",
            reWs1, reStrAlt ["name", "title", "value", "amount"]],
    -- r'\bwhich\s+(?:driver|team|customer|product|user)'
    reSeqs [.bnd, reStr "which", reWs1, reStrAlt ["driver", "team", "customer", "product", "user"]],
    -- r'\bwho\s+(?:won|has|is)'
    reSeqs [.bnd, reStr "who", reWs1, reStrAlt ["won", "has", "is"]],
    -- r'\bwhen\s+(?:did|was)'
    reSeqs [.bnd, reStr "when", reWs1, reStrAlt ["did", "was"]],
    -- r'\bwhere\s+(?:is|are|did)'
    reSeqs [.bnd, reStr "where", reWs1, reStrAlt ["is", "are", "did"]],
    -- r'\btotal\s+(?:sales|revenue|orders|count)'
    reSeqs [.bnd, reStr "total", reWs1, reStrAlt ["sales", "revenue", "orders", "count"]],
    -- r'\ball\s+(?:customers|products|orders|users)'
    reSeqs [.bnd, reStr "all", reWs1, reStrAlt ["customers", "products", "orders", "users"]],
    -- r'\bcompare\s+\w+\s+(?:and|vs|versus)\s+\w+'
    reSeqs [.bnd, reStr "compare", reWs1, reWord1, reWs1, reStrAlt ["and", "vs", "versus"],
            reWs1, reWord1] ]

/-- `self.complex_patterns` of `QueryRouter.__init__`, pattern by pattern.
Note that in `r'\boptimize|optimization'`, `r'\bstrategy|strategic'` and
`r'\bsurprising|unexpected|anomal'` the alternation has lowest precedence, so
only the first branch carries the `\b`. -/
def complex_patterns : List RE :=
  [ -- r'\bwhy\s+(?:did|is|are|has|have)'
    reSeqs [.bnd, reStr "why", reWs1, reStrAlt ["did", "is", "are", "has", "have"]],
    -- r'\bwhat\s+(?:caused|drove|contributed|led\s+to)'
    reSeqs [.bnd, reStr "what", reWs1,
            reAlts [reStr "caused", reStr "drove", reStr "contributed",
                    reSeqs [reStr "led", reWs1, reStr "to"]]],
    -- r'\bwhat\s+(?:factors|reasons|causes)'
    reSeqs [.bnd, reStr "what", reWs1, reStrAlt ["factors", "reasons", "causes"]],
    -- r'\b(?:analyze|analyse|investigate|examine|explore)\b'
    reSeqs [.bnd, reStrAlt ["analyze", "analyse", "investigate", "examine", "explore"], .bnd],
    -- r'\bwhat\s+patterns?\b'
    reSeqs [.bnd, reStr "what", reWs1, reStr "pattern", reOpt (reStr "s"), .bnd],
    -- r'\bwhat\s+trends?\b'
    reSeqs [.bnd, reStr "what", reWs1, reStr "trend", reOpt (reStr "s"), .bnd],
    -- r'\bwhat\s+insights?\b'
    reSeqs [.bnd, reStr "what", reWs1, reStr "insight", reOpt (reStr "s"), .bnd],
    -- r'\bwhat\s+should\s+I\s+know'
    reSeqs [.bnd, reStr "what", reWs1, reStr "should", reWs1, reStr "i", reWs1, reStr "know"],
    -- r'\btell\s+me\s+about\s+(?:the\s+)?(?:data|dataset|performance|business)'
    reSeqs [.bnd, reStr "tell", reWs1, reStr "me", reWs1, reStr "about", reWs1,
            reOpt (reSeqs [reStr "the", reWs1]),
            reStrAlt ["data", "dataset", "performance", "business"]],
    -- r'\bexplain\s+(?:the\s+)?(?:data|dataset|trends|patterns)'
    reSeqs [.bnd, reStr "explain", reWs1, reOpt (reSeqs [reStr "the", reWs1]),
            reStrAlt ["data", "dataset", "trends", "patterns"]],
    -- r'\bhow\s+(?:is|are)\s+(?:we|our|the\s+business|performance)'
    reSeqs [.bnd, reStr "how", reWs1, reStrAlt ["is", "are"], reWs1,
            reAlts [reStr "we", reStr "our", reSeqs [reStr "the", reWs1, reStr "business"],
                    reStr "performance"]],
    -- r'\bwhat\s+(?:drives|affects|influences|impacts)'
    reSeqs [.bnd, reStr "what", reWs1, reStrAlt ["drives", "affects", "influences", "impacts"]],
    -- r'\bhow\s+(?:can|should|do)\s+(?:we|I)\s+improve'
    reSeqs [.bnd, reStr "how", reWs1, reStrAlt ["can", "should", "do"], reWs1,
            reStrAlt ["we", "i"], reWs1, reStr "improve"],
    -- r'\boptimize|optimization'
    .alt (reSeqs [.bnd, reStr "optimize"]) (reStr "optimization"),
    -- r'\bstrategy|strategic'
    .alt (reSeqs [.bnd, reStr "strategy"]) (reStr "strategic"),
    -- r'\brelationship\s+between'
    reSeqs [.bnd, reStr "relationship", reWs1, reStr "between"],
    -- r'\bcorrelation\s+(?:between|with)'
    reSeqs [.bnd, reStr "correlation", reWs1, reStrAlt ["between", "with"]],
    -- r'\bimpact\s+of\s+\w+\s+on'
    reSeqs [.bnd, reStr "impact", reWs1, reStr "of", reWs1, reWord1, reWs1, reStr "on"],
    -- r'\b(?:predict|forecast|project)'
    reSeqs [.bnd, reStrAlt ["predict", "forecast", "project"]],
    -- r'\bbetter\s+(?:than|performing)'
    reSeqs [.bnd, reStr "better", reWs1, reStrAlt ["than", "performing"]],
    -- r'\bworst\s+performing'
    reSeqs [.bnd, reStr "worst", reWs1, reStr "performing"],
    -- r'\bbest\s+performing'
    reSeqs [.bnd, reStr "best", reWs1, reStr "performing"],
    -- r'\bperformance\s+(?:analysis|comparison)'
    reSeqs [.bnd, reStr "performance", reWs1, reStrAlt ["analysis", "comparison"]],
    -- r'\bwhat\s+(?:else|other|more)'
    reSeqs [.bnd, reStr "what", reWs1, reStrAlt ["else", "other", "more"]],
    -- r'\banything\s+(?:else|interesting|unusual)'
    reSeqs [.bnd, reStr "anything", reWs1, reStrAlt ["else", "interesting", "unusual"]],
    -- r'\bsurprising|unexpected|anomal'
    .alt (reSeqs [.bnd, reStr "surprising"]) (.alt (reStr "unexpected") (reStr "anomal")) ]

/-- `self.simple_keywords` (a Python `set`; listed here without duplicates). -/
def simple_keywords : List String :=
  ["list", "show", "display", "count", "total", "sum", "average", "max", "min",
   "first", "last", "top", "bottom", "all", "latest", "recent", "name", "title"]

/-- `self.complex_keywords`. -/
def complex_keywords : List String :=
  ["why", "analyze", "investigate", "pattern", "trend", "factor", "cause",
   "insight", "understand", "explain", "explore", "relationship", "impact",
   "performance", "optimize", "strategy", "improve", "predict", "forecast"]

/-! ## Router helper functions -/

/-- Python `str.split()` with no separator: split on whitespace runs,
discarding empty tokens.  Implemented with an accumulator for the token being
read (in reverse). -/
def splitGo : List Char → List Char → List (List Char)
  | [], acc => if acc = [] then [] else [acc.reverse]
  | c :: rest, acc =>
    if isSpaceChar c then
      if acc = [] then splitGo rest [] else acc.reverse :: splitGo rest []
    else splitGo rest (c :: acc)

/-- `question.split()`. -/
def pySplit (l : List Char) : List (List Char) := splitGo l []

/-- `question.lower()` (ASCII). -/
def asciiLowerList (l : List Char) : List Char := l.map asciiLower

/-- Exact prefix test (Python substring search is case-sensitive). -/
def startsWithExact : List Char → List Char → Bool
  | [], _ => true
  | _ :: _, [] => false
  | p :: ps, c :: cs => p = c && startsWithExact ps cs

/-- Python `pat in s`: substring containment. -/
def hasSub (p : List Char) : List Char → Bool
  | [] => startsWithExact p []
  | c :: s1 => startsWithExact p (c :: s1) || hasSub p s1

/-- `question.lower().strip()`, the text all scores are computed over. -/
def questionLower (question : List Char) : List Char :=
  pyStrip (asciiLowerList question)

/-- `_calculate_pattern_score`: the number of patterns of the table that
match somewhere in the question. -/
def patternScore (patterns : List RE) (q : List Char) : Nat :=
  patterns.countP fun r => reSearch r q

/-- `_calculate_keyword_score`: the number of distinct keywords appearing as
whitespace-delimited tokens of the question
(`set(question.split()).intersection(keywords)`). -/
def keywordScore (keywords : List String) (q : List Char) : Nat :=
  keywords.countP fun kw => (pySplit q).contains kw.data

/-- `total_simple_score = simple_score + simple_keyword_score`. -/
def totalSimpleScore (question : List Char) : Nat :=
  patternScore simple_patterns (questionLower question) +
    keywordScore simple_keywords (questionLower question)

/-- `total_complex_score = complex_score + complex_keyword_score`. -/
def totalComplexScore (question : List Char) : Nat :=
  patternScore complex_patterns (questionLower question) +
    keywordScore complex_keywords (questionLower question)

/-- `question_length = len(question.split())` (over the original question). -/
def questionLength (question : List Char) : Nat :=
  (pySplit question).length

/-- `has_question_words = any(word in question_lower for word in
['why', 'how', 'what', 'when', 'where', 'who'])` — substring containment,
not word containment. -/
def hasQuestionWords (question : List Char) : Bool :=
  ["why", "how", "what", "when", "where", "who"].any fun w =>
    hasSub w.data (questionLower question)

/-- The `QueryType` enum. -/
inductive QueryType where
  | SIMPLE
  | COMPLEX
  | AMBIGUOUS
deriving DecidableEq

/-- The `routing_metadata` dictionary: its keys are fixed across all return
paths of `route_question`.  Confidence is modelled as a rational. -/
structure RouteMeta where
  simple_score : Nat
  complex_score : Nat
  question_length : Nat
  confidence : ℚ
  reasoning : String
deriving DecidableEq

/-- The metadata record of a decision branch: the scores and the length are
computed before the decision chain and returned unchanged by every branch. -/
def routeMeta (question : List Char) (conf : ℚ) (why : String) : RouteMeta :=
  ⟨totalSimpleScore question, totalComplexScore question, questionLength question, conf, why⟩

/-- `QueryRouter.route_question`, branch for branch.  The metadata fields
`simple_score`, `complex_score` and `question_length` are set before the
decision chain and unchanged by it; `confidence` and `reasoning` are set by
the branch that fires. -/
def route_question (question : List Char) : QueryType × RouteMeta :=
  if 3 ≤ totalSimpleScore question ∧ totalComplexScore question ≤ 1 then
    (.SIMPLE, routeMeta question (9/10) "Strong simple query patterns detected")
  else if 3 ≤ totalComplexScore question ∧ totalSimpleScore question ≤ 1 then
    (.COMPLEX, routeMeta question (9/10) "Strong complex analysis patterns detected")
  else if questionLength question ≤ 5 ∧ 0 < totalSimpleScore question then
    (.SIMPLE, routeMeta question (8/10) "Short question with simple patterns")
  else if 10 ≤ questionLength question ∧ hasQuestionWords question then
    (.COMPLEX, routeMeta question (7/10) "Long analytical question")
  else if totalComplexScore question < totalSimpleScore question then
    (.SIMPLE, routeMeta question (6/10) "Simple score higher than complex")
  else if totalSimpleScore question < totalComplexScore question then
    (.COMPLEX, routeMeta question (6/10) "Complex score higher than simple")
  else
    (.SIMPLE, routeMeta question (5/10) "Ambiguous question - defaulting to simple")

/-! ## The identifier validator

`validate_table_name` is imported from `core.guardrails` by the repository's
test suite, but the provided `src/core/guardrails.py` does not contain it. -/

/-- Modelled from the spec: `validate_table_name` (the spec's
`is_valid_identifier`, §4.2) is missing from the provided sources — only
`src/tests/test_guardrails.py` references it.  Following the spec, a name is
valid iff it is non-null, non-empty, matches
`^[A-Za-z_][A-Za-z0-9_]*$`, and is not a case-insensitive match of a fixed
denylist of system/catalog identifiers; the denylist entries are the ones the
repository's tests require to be rejected. -/
def system_denylist : List String :=
  ["sqlite_master", "pg_tables", "information_schema"]

/-- First character of a valid identifier: ASCII letter or underscore. -/
def identHeadOk (c : Char) : Bool :=
  ('a' ≤ c && c ≤ 'z') || ('A' ≤ c && c ≤ 'Z') || c = '_'

/-- Later characters: ASCII letter, digit or underscore. -/
def identTailOk (c : Char) : Bool :=
  identHeadOk c || isDigitChar c

/-- Modelled from the spec: the identifier validator (see `system_denylist`
above for what is missing and why).  `none` models Python `None`. -/
def validate_table_name (name : Option (List Char)) : Bool :=
  match name with
  | none => false
  | some [] => false
  | some (c :: rest) =>
    identHeadOk c && rest.all identTailOk &&
      !(system_denylist.map String.data).contains (asciiLowerList (c :: rest))

/-! ## Claim-side definition: interrogative *word* containment

Claim C8 (and §4.3 of the spec) describes rule 4 as requiring an
interrogative *word of the question*; the code tests substring containment
instead.  To compare the two readings we also formalise the claim's wording:
an occurrence of the word delimited by word boundaries. -/

/-- Modelled from the claim wording of C8: one whole-word, case-insensitive
occurrence of `w` at the current position. -/
def wordHit (w : List Char) (prev : Option Char) (u : List Char) : Bool :=
  startsWithCI w u && leftOk prev && boundaryOk (u.drop w.length)

/-- Scan for a whole-word occurrence. -/
def wordScan (w : List Char) (prev : Option Char) : List Char → Bool
  | [] => false
  | c :: rest => wordHit w prev (c :: rest) || wordScan w (some c) rest

/-- Modelled from the claim wording of C8: `w` occurs in `s` as a whole word. -/
def containsWordCI (w : List Char) (s : List Char) : Bool :=
  wordScan w none s

/-- Modelled from the claim wording of C8: some interrogative word occurs in
the (lower-cased, stripped) question as a whole word. -/
def hasInterrogativeAsWord (q : List Char) : Bool :=
  ["why", "how", "what", "when", "where", "who"].any fun w =>
    containsWordCI w.data (questionLower q)

/-- A fixed sample question used by several concrete evaluations: eleven
tokens, no routing keyword, no routing pattern, and the only interrogative
material is the substring of the word `showcase`. -/
def longNeutralQuestion : List Char :=
  "the quick brown fox jumped over the lazy dog showcase today".data

/-! # Theorems -/

/-- Bridging `List.contains` (used by the executable definitions) and `∉`. -/
theorem contains_eq_false_iff {α : Type} [BEq α] [LawfulBEq α] (l : List α) (a : α) :
    (l.contains a = false) ↔ a ∉ l := by
  rw [show l.contains a = List.elem a l from rfl]
  rw [← @List.elem_iff _ _ _ a l]
  cases List.elem a l <;> simp

/-- C1: the claim states that every accepted `sanitize_sql` output carries
exactly one `LIMIT n` clause with `n` at most the configured cap.  The code
only *appends* a limit when none is present and never compares an existing
one against the cap: on `SELECT * FROM users LIMIT 50000` with cap `500` it
accepts the statement unchanged, with `LIMIT 50000 > 500`.  The repository's
own test `test_excessive_limit_rejected` expects this input to be rejected,
so this is a bug in the code, not in the claim. -/
theorem claim_C1_failing_eval :
    sanitize_sql (some ("SELECT * FROM users LIMIT 50000".data)) 500 =
      (true, "SELECT * FROM users LIMIT 50000".data, "") := by
  decide

/-- C2: the claim (and the repository test `test_excessive_limit_rejected`)
says a passing SELECT with `LIMIT 50000` under cap `500` is rejected with
`ExcessiveLimit`; the code has no such check and accepts it with an empty
rejection reason. -/
theorem claim_C2_failing_eval :
    (sanitize_sql (some ("SELECT * FROM users LIMIT 50000".data)) 500).1 = true ∧
      (sanitize_sql (some ("SELECT * FROM users LIMIT 50000".data)) 500).2.2 ≠
        "excessive_limit" := by
  constructor <;> decide

/-- C4: the claim says empty, whitespace-only or absent input is rejected
with `EmptyInput` (`"empty_sql"`).  The code only tests falsiness of the raw
string, so a whitespace-only candidate slips past the emptiness check, is
stripped to nothing and rejected as `non_select_or_unsafe` instead — in
conflict with the repository test `test_empty_queries`, which expects a
reason containing `empty` for `"   "`.  Absent (`None`) and empty inputs do
take the `empty_sql` path. -/
theorem claim_C4_failing_eval :
    sanitize_sql (some ("   ".data)) 500 = (false, [], "non_select_or_unsafe") ∧
      sanitize_sql none 500 = (false, [], "empty_sql") ∧
      sanitize_sql (some []) 500 = (false, [], "empty_sql") := by
  refine ⟨?_, ?_, ?_⟩ <;> decide

/-- C3, counterexample: the claim quantifies over *every* candidate
containing a forbidden verb, but the anchor check runs first, so a candidate
that does not start with `SELECT`/`WITH` is rejected as
`non_select_or_unsafe` even though it contains `DROP`. -/
theorem claim_C3_cex :
    containsForbidden ("DROP TABLE users".data) = true ∧
      (sanitize_sql (some ("DROP TABLE users".data)) 500).2.2 = "non_select_or_unsafe" ∧
      (sanitize_sql (some ("DROP TABLE users".data)) 500).2.2 ≠ "forbidden_keyword" := by
  refine ⟨?_, ?_, ?_⟩ <;> decide

/-- C3, amended: every candidate that passes the `SELECT`/`WITH` anchor and
whose stripped text contains a forbidden verb as a case-insensitive whole
word is rejected with `ForbiddenKeyword`. -/
theorem claim_C3_amended (s : List Char) (cap : Nat)
    (hanchor : anchorMatches (cleanSql s) = true)
    (hforb : containsForbidden (cleanSql s) = true) :
    sanitize_sql (some s) cap = (false, [], "forbidden_keyword") := by
  have hne : s ≠ [] := by
    rintro rfl
    rw [show cleanSql [] = [] from rfl] at hanchor
    exact absurd hanchor (by decide)
  simp only [sanitize_sql, if_neg hne, hanchor, hforb]
  simp

/-- Witness for the amended C3 at a concrete anchored candidate containing
`DROP`. -/
theorem claim_C3_amended_witness :
    anchorMatches (cleanSql ("SELECT x DROP y".data)) = true ∧
      containsForbidden (cleanSql ("SELECT x DROP y".data)) = true ∧
      sanitize_sql (some ("SELECT x DROP y".data)) 500 = (false, [], "forbidden_keyword") :=
  ⟨by decide, by decide, claim_C3_amended ("SELECT x DROP y".data) 500 (by decide) (by decide)⟩

/-- C6: the router is total — every question yields the category `SIMPLE` or
`COMPLEX` (never `AMBIGUOUS`, never a failure), a confidence within `[0, 1]`,
and under total ambiguity (equal combined scores with none of the earlier
decision rules firing) it yields `SIMPLE` with confidence `0.5`. -/
theorem claim_C6 (q : List Char) :
    ((route_question q).1 = QueryType.SIMPLE ∨ (route_question q).1 = QueryType.COMPLEX) ∧
      0 ≤ (route_question q).2.confidence ∧ (route_question q).2.confidence ≤ 1 ∧
      (¬(3 ≤ totalSimpleScore q ∧ totalComplexScore q ≤ 1) →
        ¬(3 ≤ totalComplexScore q ∧ totalSimpleScore q ≤ 1) →
        ¬(questionLength q ≤ 5 ∧ 0 < totalSimpleScore q) →
        ¬(10 ≤ questionLength q ∧ hasQuestionWords q = true) →
        totalSimpleScore q = totalComplexScore q →
        (route_question q).1 = QueryType.SIMPLE ∧
          (route_question q).2.confidence = 5/10) := by
  unfold route_question
  split_ifs with h1 h2 h3 h4 h5 h6
  · exact ⟨Or.inl rfl, by norm_num [routeMeta], by norm_num [routeMeta],
      fun a _ _ _ _ => absurd h1 a⟩
  · exact ⟨Or.inr rfl, by norm_num [routeMeta], by norm_num [routeMeta],
      fun _ b _ _ _ => absurd h2 b⟩
  · exact ⟨Or.inl rfl, by norm_num [routeMeta], by norm_num [routeMeta],
      fun _ _ c _ _ => absurd h3 c⟩
  · exact ⟨Or.inr rfl, by norm_num [routeMeta], by norm_num [routeMeta],
      fun _ _ _ d _ => absurd h4 d⟩
  · exact ⟨Or.inl rfl, by norm_num [routeMeta], by norm_num [routeMeta],
      fun _ _ _ _ e => absurd e (by omega)⟩
  · exact ⟨Or.inr rfl, by norm_num [routeMeta], by norm_num [routeMeta],
      fun _ _ _ _ e => absurd e (by omega)⟩
  · exact ⟨Or.inl rfl, by norm_num [routeMeta], by norm_num [routeMeta],
      fun _ _ _ _ _ => ⟨rfl, rfl⟩⟩

/-- Witness for C6 at the empty question, which is totally ambiguous. -/
theorem claim_C6_witness :
    (route_question ("".data)).1 = QueryType.SIMPLE ∧
      (route_question ("".data)).2.confidence = 5/10 :=
  (claim_C6 ("".data)).2.2.2 (by decide) (by decide) (by decide) (by decide) (by decide)

/-- C7: whenever the combined simple score is at least `3` and the combined
complex score is at most `1`, decision rule 1 fires: category `SIMPLE`,
confidence exactly `0.9`. -/
theorem claim_C7 (q : List Char)
    (h1 : 3 ≤ totalSimpleScore q) (h2 : totalComplexScore q ≤ 1) :
    (route_question q).1 = QueryType.SIMPLE ∧
      (route_question q).2.confidence = 9/10 := by
  unfold route_question
  rw [if_pos ⟨h1, h2⟩]
  exact ⟨rfl, rfl⟩

/-- Witness for C7 at `show top 10 customers` (scores 4 vs 0), including the
claim's `confidence ≥ 0.8` consequence. -/
theorem claim_C7_witness :
    3 ≤ totalSimpleScore ("show top 10 customers".data) ∧
      totalComplexScore ("show top 10 customers".data) ≤ 1 ∧
      (route_question ("show top 10 customers".data)).1 = QueryType.SIMPLE ∧
      (route_question ("show top 10 customers".data)).2.confidence = 9/10 ∧
      (8 : ℚ)/10 ≤ (route_question ("show top 10 customers".data)).2.confidence := by
  have h := claim_C7 ("show top 10 customers".data) (by decide) (by decide)
  exact ⟨by decide, by decide, h.1, h.2, by rw [h.2]; norm_num⟩

/-- C8, counterexample: on an eleven-token question whose only interrogative
material is the substring `how` inside the word `showcase`, rules 1–3 do not
fire, no interrogative *word* occurs, and yet the code returns `COMPLEX` with
confidence `0.7` — because it tests substring containment
(`word in question_lower`), not word containment as the claim states. -/
theorem claim_C8_cex :
    ¬(3 ≤ totalSimpleScore longNeutralQuestion ∧ totalComplexScore longNeutralQuestion ≤ 1) ∧
      ¬(3 ≤ totalComplexScore longNeutralQuestion ∧ totalSimpleScore longNeutralQuestion ≤ 1) ∧
      ¬(questionLength longNeutralQuestion ≤ 5 ∧ 0 < totalSimpleScore longNeutralQuestion) ∧
      hasInterrogativeAsWord longNeutralQuestion = false ∧
      (route_question longNeutralQuestion).1 = QueryType.COMPLEX ∧
      (route_question longNeutralQuestion).2.confidence = 7/10 := by
  exact ⟨by decide, by decide, by decide, by decide, rfl, rfl⟩

/-- C8, amended: when rules 1–3 do not fire, the router returns `COMPLEX`
with confidence `0.7` exactly when the question has at least ten
whitespace-delimited tokens and one of `why/how/what/when/where/who` occurs
as a *substring* of the lower-cased question. -/
theorem claim_C8_amended (q : List Char)
    (h1 : ¬(3 ≤ totalSimpleScore q ∧ totalComplexScore q ≤ 1))
    (h2 : ¬(3 ≤ totalComplexScore q ∧ totalSimpleScore q ≤ 1))
    (h3 : ¬(questionLength q ≤ 5 ∧ 0 < totalSimpleScore q)) :
    ((route_question q).1 = QueryType.COMPLEX ∧
        (route_question q).2.confidence = 7/10) ↔
      (10 ≤ questionLength q ∧ hasQuestionWords q = true) := by
  unfold route_question
  rw [if_neg h1, if_neg h2, if_neg h3]
  by_cases h4 : 10 ≤ questionLength q ∧ hasQuestionWords q = true
  · rw [if_pos h4]
    exact iff_of_true ⟨rfl, rfl⟩ h4
  · rw [if_neg h4]
    constructor
    · intro hL
      exfalso
      split_ifs at hL with h5 h6
      · exact absurd hL.1 (by decide)
      · have h7 := hL.2
        norm_num [routeMeta] at h7
      · exact absurd hL.1 (by decide)
    · intro hR
      exact absurd hR h4

/-- Witness for the amended C8 at the same eleven-token question. -/
theorem claim_C8_amended_witness :
    (¬(3 ≤ totalSimpleScore longNeutralQuestion ∧ totalComplexScore longNeutralQuestion ≤ 1) ∧
        ¬(3 ≤ totalComplexScore longNeutralQuestion ∧ totalSimpleScore longNeutralQuestion ≤ 1) ∧
        ¬(questionLength longNeutralQuestion ≤ 5 ∧ 0 < totalSimpleScore longNeutralQuestion)) ∧
      (route_question longNeutralQuestion).1 = QueryType.COMPLEX ∧
      (route_question longNeutralQuestion).2.confidence = 7/10 := by
  have h := claim_C8_amended longNeutralQuestion (by decide) (by decide) (by decide)
  exact ⟨⟨by decide, by decide, by decide⟩, h.mpr ⟨by decide, by decide⟩⟩

/-- C9: the identifier validator (modelled from the spec, see
`validate_table_name`) accepts exactly the non-empty strings whose first
character is a letter or underscore, whose remaining characters are
alphanumeric or underscore, and whose lower-casing is not on the
system/catalog denylist; in particular it rejects `sqlite_master` and
`123table` and accepts `user_accounts`. -/
theorem claim_C9 :
    (∀ l : List Char, validate_table_name (some l) = true ↔
        ∃ c rest, l = c :: rest ∧ identHeadOk c = true ∧
          (∀ x ∈ rest, identTailOk x = true) ∧
          asciiLowerList l ∉ system_denylist.map String.data) ∧
      validate_table_name (some ("sqlite_master".data)) = false ∧
      validate_table_name (some ("123table".data)) = false ∧
      validate_table_name (some ("user_accounts".data)) = true := by
  refine ⟨?_, by decide, by decide, by decide⟩
  intro l
  cases l with
  | nil => simp [validate_table_name]
  | cons c rest =>
    simp only [validate_table_name, Bool.and_eq_true, Bool.not_eq_true',
      List.all_eq_true, contains_eq_false_iff]
    constructor
    · rintro ⟨⟨hc, hrest⟩, hden⟩
      exact ⟨c, rest, rfl, hc, hrest, hden⟩
    · rintro ⟨c2, rest2, heq, hc, hrest, hden⟩
      cases heq
      exact ⟨⟨hc, hrest⟩, hden⟩

/-- C10: every routing decision carries one of the five literal confidence
values `0.9, 0.8, 0.7, 0.6, 0.5` — never the `0.0` the metadata is
initialised with — and a non-empty `reasoning` string. -/
theorem claim_C10 (q : List Char) :
    ((route_question q).2.confidence = 9/10 ∨ (route_question q).2.confidence = 8/10 ∨
        (route_question q).2.confidence = 7/10 ∨ (route_question q).2.confidence = 6/10 ∨
        (route_question q).2.confidence = 5/10) ∧
      (route_question q).2.reasoning ≠ "" := by
  unfold route_question
  split_ifs <;>
    exact ⟨by norm_num [routeMeta], by simp only [routeMeta]; decide⟩

/-! ## Helper lemmas: characters -/

/-- Enumerate the whitespace characters. -/
theorem spaceChar_cases (c : Char) (h : isSpaceChar c = true) :
    c = ' ' ∨ c = '\t' ∨ c = '\n' ∨ c = '\r' ∨ c = Char.ofNat 11 ∨ c = Char.ofNat 12 := by
  simp only [isSpaceChar, Bool.or_eq_true, decide_eq_true_eq] at h
  tauto

/-- Case-insensitive equality against a common character is transitive. -/
theorem charCI_trans (a b c : Char) (hac : charCI a c = true) (hbc : charCI b c = true) :
    charCI a b = true := by
  simp only [charCI, decide_eq_true_eq] at *
  rw [hac, hbc]

/-- Two case-insensitively distinct characters cannot both match `c`. -/
theorem charCI_conflict (a b c : Char) (hab : charCI a b = false) (hac : charCI a c = true) :
    charCI b c = false := by
  by_contra h
  rw [Bool.not_eq_false] at h
  rw [charCI_trans a b c hac h] at hab
  cases hab

/-- A character case-insensitively equal to a letter is not whitespace. -/
theorem charCI_letter_not_space (a c : Char) (h : charCI a c = true)
    (ha : ∀ w, isSpaceChar w = true → charCI a w = false) : isSpaceChar c = false := by
  by_contra hc
  rw [Bool.not_eq_false] at hc
  rw [ha c hc] at h
  cases h

/-! ## Helper lemmas: strips -/

/-- `dropWhile` is the identity when the head (if any) fails the predicate. -/
theorem dropWhile_eq_self_of_head (p : Char → Bool) (l : List Char)
    (h : ∀ c, l.head? = some c → p c = false) : l.dropWhile p = l := by
  cases l with
  | nil => rfl
  | cons a as =>
    rw [List.dropWhile_cons_of_neg]
    simp [h a rfl]

/-- The head surviving `dropWhile` fails the predicate. -/
theorem head?_dropWhile_false (p : Char → Bool) (l : List Char) :
    ∀ c, (l.dropWhile p).head? = some c → p c = false := by
  intro c hc
  have h := List.head?_dropWhile_not p l
  rw [hc] at h
  exact h

/-- `rdropWhile` is the identity when the last element (if any) fails the
predicate. -/
theorem rdropWhile_eq_self (p : Char → Bool) (l : List Char)
    (h : ∀ c, l.getLast? = some c → p c = false) : rdropWhile p l = l := by
  unfold rdropWhile
  rw [dropWhile_eq_self_of_head p l.reverse
    (fun c hc => h c (by rwa [List.head?_reverse] at hc)), List.reverse_reverse]

/-- The last element surviving `rdropWhile` fails the predicate. -/
theorem getLast?_rdropWhile_false (p : Char → Bool) (l : List Char) :
    ∀ c, (rdropWhile p l).getLast? = some c → p c = false := by
  intro c hc
  unfold rdropWhile at hc
  rw [List.getLast?_reverse] at hc
  exact head?_dropWhile_false p l.reverse c hc

/-- `rdropWhile` returns a prefix: a surviving head was the original head. -/
theorem head?_rdropWhile (p : Char → Bool) (l : List Char) :
    ∀ c, (rdropWhile p l).head? = some c → l.head? = some c := by
  intro c hc
  have hsplit : rdropWhile p l ++ (l.reverse.takeWhile p).reverse = l := by
    unfold rdropWhile
    rw [← List.reverse_append, List.takeWhile_append_dropWhile, List.reverse_reverse]
  have hne : rdropWhile p l ≠ [] := by
    intro h0
    rw [h0] at hc
    cases hc
  rw [← hsplit, List.head?_append_of_ne_nil _ hne]
  exact hc

/-- The head of a stripped list is not whitespace. -/
theorem pyStrip_head (l : List Char) :
    ∀ c, (pyStrip l).head? = some c → isSpaceChar c = false := by
  intro c hc
  exact head?_dropWhile_false isSpaceChar l c (head?_rdropWhile _ _ c hc)

/-- The last element of a stripped list is not whitespace. -/
theorem pyStrip_getLast (l : List Char) :
    ∀ c, (pyStrip l).getLast? = some c → isSpaceChar c = false :=
  getLast?_rdropWhile_false isSpaceChar _

/-- `pyStrip` is the identity on lists clean at both ends. -/
theorem pyStrip_eq_self (l : List Char)
    (hh : ∀ c, l.head? = some c → isSpaceChar c = false)
    (hl : ∀ c, l.getLast? = some c → isSpaceChar c = false) : pyStrip l = l := by
  unfold pyStrip
  rw [dropWhile_eq_self_of_head _ _ hh, rdropWhile_eq_self _ _ hl]

/-- `stripBT` is the identity on lists without backquotes at the ends. -/
theorem stripBT_eq_self (l : List Char)
    (hh : ∀ c, l.head? = some c → c ≠ btChar)
    (hl : ∀ c, l.getLast? = some c → c ≠ btChar) : stripBT l = l := by
  unfold stripBT
  rw [dropWhile_eq_self_of_head _ _ (fun c hc => by simp [hh c hc]),
    rdropWhile_eq_self _ _ (fun c hc => by simp [hl c hc])]

/-- `rstripSemi` is the identity on lists not ending in a semicolon. -/
theorem rstripSemi_eq_self (l : List Char)
    (hl : ∀ c, l.getLast? = some c → c ≠ ';') : rstripSemi l = l := by
  unfold rstripSemi
  rw [rdropWhile_eq_self _ _ (fun c hc => by simp [hl c hc])]

/-- `subSqlTag` is the identity when the text does not begin with `sql`. -/
theorem subSqlTag_eq_self (l : List Char)
    (h : startsWithCI ['s', 'q', 'l'] l = false) : subSqlTag l = l := by
  unfold subSqlTag
  rw [h]
  simp

/-- The whole stripping pipeline is the identity on a statement whose first
character is clean, which does not begin with a `sql` language tag, and whose
last character is clean. -/
theorem cleanSql_eq_self (l : List Char)
    (hh : ∀ c, l.head? = some c → isSpaceChar c = false ∧ c ≠ btChar)
    (hsql : startsWithCI ['s', 'q', 'l'] l = false)
    (hl : ∀ c, l.getLast? = some c → isSpaceChar c = false ∧ c ≠ btChar ∧ c ≠ ';') :
    cleanSql l = l := by
  have e1 : pyStrip l = l :=
    pyStrip_eq_self l (fun c h => (hh c h).1) (fun c h => (hl c h).1)
  have e2 : stripBT l = l :=
    stripBT_eq_self l (fun c h => (hh c h).2) (fun c h => (hl c h).2.1)
  have e3 : subSqlTag l = l := subSqlTag_eq_self l hsql
  have e4 : rstripSemi l = l := rstripSemi_eq_self l (fun c h => (hl c h).2.2)
  unfold cleanSql
  rw [e1, e2, e3, e1, e4, e1]

/-! ## Helper lemmas: `startsWithCI` -/

/-- A prefix match survives appending on the right. -/
theorem startsWithCI_append (p s e : List Char) (h : startsWithCI p s = true) :
    startsWithCI p (s ++ e) = true := by
  induction p generalizing s with
  | nil => rfl
  | cons x xs ih =>
    cases s with
    | nil => cases h
    | cons c cs =>
      simp only [startsWithCI, Bool.and_eq_true] at h
      simp only [List.cons_append, startsWithCI, Bool.and_eq_true]
      exact ⟨h.1, ih cs h.2⟩

/-- A matching pattern is no longer than the text. -/
theorem startsWithCI_length (p s : List Char) (h : startsWithCI p s = true) :
    p.length ≤ s.length := by
  induction p generalizing s with
  | nil => simp
  | cons x xs ih =>
    cases s with
    | nil => cases h
    | cons c cs =>
      simp only [startsWithCI, Bool.and_eq_true] at h
      simpa using ih cs h.2

/-- When the pattern fits inside the left part, appending does not change the
verdict. -/
theorem startsWithCI_append_inv (p s e : List Char) (hlen : p.length ≤ s.length) :
    startsWithCI p (s ++ e) = startsWithCI p s := by
  induction p generalizing s with
  | nil => rfl
  | cons x xs ih =>
    cases s with
    | nil => simp at hlen
    | cons c cs =>
      simp only [List.cons_append, startsWithCI, List.append_eq]
      rw [ih cs (by simpa using hlen)]

/-- Destructure a nonempty pattern match. -/
theorem startsWithCI_head (p : Char) (ps : List Char) (t : List Char)
    (h : startsWithCI (p :: ps) t = true) :
    ∃ c t1, t = c :: t1 ∧ charCI p c = true ∧ startsWithCI ps t1 = true := by
  cases t with
  | nil => cases h
  | cons c t1 =>
    simp only [startsWithCI, Bool.and_eq_true] at h
    exact ⟨c, t1, rfl, h.1, h.2⟩

/-! ## Helper lemmas: decimal digits -/

/-- `digitChar` always yields one of the ten digit characters. -/
theorem digitChar_mem (k : Nat) :
    digitChar k ∈ (['0','1','2','3','4','5','6','7','8','9'] : List Char) := by
  unfold digitChar
  split <;> decide

/-- A decimal rendering is never empty. -/
theorem natDigits_ne_nil (n : Nat) : natDigits n ≠ [] := by
  show natDigitsAux (n + 1) n ≠ []
  rw [natDigitsAux]
  split <;> simp

/-- Every character of a fuel-bounded decimal rendering is a digit
character. -/
theorem natDigitsAux_mem :
    ∀ fuel n c, c ∈ natDigitsAux fuel n →
      c ∈ (['0','1','2','3','4','5','6','7','8','9'] : List Char) := by
  intro fuel
  induction fuel with
  | zero => intro n c hc; cases hc
  | succ f ih =>
    intro n c hc
    rw [natDigitsAux] at hc
    split at hc
    · simp only [List.mem_singleton] at hc
      rw [hc]
      exact digitChar_mem n
    · rw [List.mem_append] at hc
      rcases hc with hc | hc
      · exact ih (n / 10) c hc
      · simp only [List.mem_singleton] at hc
        rw [hc]
        exact digitChar_mem _

/-- Every character of a decimal rendering is a digit character. -/
theorem natDigits_mem (n : Nat) :
    ∀ c ∈ natDigits n, c ∈ (['0','1','2','3','4','5','6','7','8','9'] : List Char) :=
  fun c hc => natDigitsAux_mem (n + 1) n c hc

/-- The character-level facts needed about digit characters. -/
theorem digit_facts (c : Char)
    (h : c ∈ (['0','1','2','3','4','5','6','7','8','9'] : List Char)) :
    isSpaceChar c = false ∧ c ≠ btChar ∧ c ≠ ';' ∧ isDigitChar c = true := by
  fin_cases h <;> exact ⟨by decide, by decide, by decide, by decide⟩

/-! ## Helper lemmas: the anchor matcher under right extension -/

/-- Dropping within the left part of an append. -/
theorem drop_append_le (n : Nat) (a b : List Char) (h : n ≤ a.length) :
    (a ++ b).drop n = a.drop n ++ b := by
  induction a generalizing n with
  | nil =>
    have h0 : n = 0 := by simpa using h
    subst h0
    simp
  | cons x xs ih =>
    cases n with
    | zero => simp
    | succ m =>
      simp only [List.cons_append, List.drop_succ_cons]
      exact ih m (by simpa using h)

/-- Empty input never matches the anchor body. -/
theorem cteStarF_nil (f : Nat) : cteStarF f [] = false := by
  cases f with
  | zero => rfl
  | succ f => rfl

/-- A word boundary survives appending text that starts with a non-word
character. -/
theorem boundaryOk_append (z e : List Char)
    (he : ∀ c, e.head? = some c → isWordChar c = false)
    (h : boundaryOk z = true) : boundaryOk (z ++ e) = true := by
  cases z with
  | nil =>
    cases e with
    | nil => rfl
    | cons c e1 => simp [boundaryOk, he c rfl]
  | cons c z1 => simpa [boundaryOk] using h

/-- `SELECT\b` survives appending text that starts with a non-word
character. -/
theorem selectTail_append (u e : List Char)
    (he : ∀ c, e.head? = some c → isWordChar c = false)
    (h : selectTail u = true) : selectTail (u ++ e) = true := by
  unfold selectTail at h ⊢
  rw [Bool.and_eq_true] at h ⊢
  have hlen : 6 ≤ u.length := startsWithCI_length _ _ h.1
  refine ⟨startsWithCI_append _ _ _ h.1, ?_⟩
  rw [drop_append_le 6 u e hlen]
  exact boundaryOk_append _ _ he h.2

/-- `cteTail` is monotone under right extension of the input, relative to a
pointwise extension property of the continuation. -/
theorem cteTail_append (e : List Char) (k k2 : List Char → Bool)
    (hk : ∀ z, k z = true → k2 (z ++ e) = true) :
    ∀ z, cteTail k z = true → cteTail k2 (z ++ e) = true := by
  intro z
  induction z with
  | nil =>
    intro h
    have h2 := hk [] h
    rw [List.nil_append] at h2 ⊢
    cases e with
    | nil => simpa [cteTail] using h2
    | cons c e1 =>
      rw [cteTail, Bool.or_eq_true]
      exact Or.inl h2
  | cons c z1 ih =>
    intro h
    rw [cteTail, Bool.or_eq_true] at h
    rw [List.cons_append, cteTail, Bool.or_eq_true]
    rcases h with h | h
    · exact Or.inl (by simpa using hk _ h)
    · rw [Bool.and_eq_true] at h
      right
      rw [Bool.and_eq_true]
      exact ⟨h.1, ih h.2⟩

/-- `closeSearch` is monotone under right extension. -/
theorem closeSearch_append (e : List Char) (k k2 : List Char → Bool)
    (hk : ∀ z, k z = true → k2 (z ++ e) = true) :
    ∀ z, closeSearch k z = true → closeSearch k2 (z ++ e) = true := by
  intro z
  induction z with
  | nil => intro h; cases h
  | cons c z1 ih =>
    intro h
    rw [closeSearch, Bool.or_eq_true] at h
    rw [List.cons_append, closeSearch, Bool.or_eq_true]
    rcases h with h | h
    · rw [Bool.and_eq_true] at h
      left
      rw [Bool.and_eq_true]
      exact ⟨h.1, cteTail_append e k k2 hk z1 h.2⟩
    · exact Or.inr (ih h)

/-- `asParen` is monotone under right extension. -/
theorem asParen_append (e : List Char) (k k2 : List Char → Bool)
    (hk : ∀ z, k z = true → k2 (z ++ e) = true)
    (w : List Char) (h : asParen k w = true) : asParen k2 (w ++ e) = true := by
  unfold asParen at h ⊢
  rw [Bool.and_eq_true] at h
  obtain ⟨h1, h2⟩ := h
  have hlen : 2 ≤ w.length := startsWithCI_length _ _ h1
  rw [Bool.and_eq_true]
  refine ⟨startsWithCI_append _ _ _ h1, ?_⟩
  rw [drop_append_le 2 w e hlen]
  cases hgrp : (w.drop 2).dropWhile isSpaceChar with
  | nil => rw [hgrp] at h2; cases h2
  | cons g w3 =>
    rw [hgrp] at h2
    have h3 : (decide (g = '(') && closeSearch k w3) = true := h2
    rw [Bool.and_eq_true] at h3
    rw [List.dropWhile_append, hgrp]
    simp only [List.isEmpty_cons, List.cons_append]
    show (decide (g = '(') && closeSearch k2 (w3 ++ e)) = true
    rw [Bool.and_eq_true]
    exact ⟨h3.1, closeSearch_append e k k2 hk w3 h3.2⟩

/-- `cteAfter` is monotone under right extension. -/
theorem cteAfter_append (e : List Char) (k k2 : List Char → Bool)
    (hk : ∀ z, k z = true → k2 (z ++ e) = true) :
    ∀ v, cteAfter k v = true → cteAfter k2 (v ++ e) = true := by
  intro v
  induction v with
  | nil => intro h; cases h
  | cons c v1 ih =>
    intro h
    rw [cteAfter, Bool.or_eq_true] at h
    rw [List.cons_append, cteAfter, Bool.or_eq_true]
    rcases h with h | h
    · exact Or.inl (asParen_append e k k2 hk v1 h)
    · exact Or.inr (ih h)

/-- The anchor body is stable under appending text that starts with a
non-word character. -/
theorem cteStarF_append (e : List Char)
    (he : ∀ c, e.head? = some c → isWordChar c = false) :
    ∀ f u, cteStarF f u = true → cteStarF f (u ++ e) = true := by
  intro f
  induction f with
  | zero => intro u h; cases h
  | succ f ih =>
    intro u h
    rw [cteStarF, Bool.or_eq_true] at h
    rw [cteStarF, Bool.or_eq_true]
    rcases h with h | h
    · exact Or.inl (selectTail_append u e he h)
    · rw [Bool.and_eq_true] at h
      obtain ⟨h1, h2⟩ := h
      have hlen : 4 ≤ u.length := startsWithCI_length _ _ h1
      right
      rw [Bool.and_eq_true]
      refine ⟨startsWithCI_append _ _ _ h1, ?_⟩
      rw [drop_append_le 4 u e hlen]
      cases hd : u.drop 4 with
      | nil => rw [hd] at h2; cases h2
      | cons c v =>
        rw [hd] at h2
        have h3 : (isSpaceChar c && cteAfter (cteStarF f) v) = true := h2
        rw [Bool.and_eq_true] at h3
        show (isSpaceChar c && cteAfter (cteStarF f) (v ++ e)) = true
        rw [Bool.and_eq_true]
        exact ⟨h3.1, cteAfter_append e _ _ (fun z hz => ih z hz) v h3.2⟩

/-- `cteTail` is monotone in the continuation. -/
theorem cteTail_mono (k k2 : List Char → Bool)
    (hk : ∀ z, k z = true → k2 z = true) :
    ∀ z, cteTail k z = true → cteTail k2 z = true := by
  intro z h
  have h2 := cteTail_append [] k k2 (fun z1 hz => by simpa using hk z1 hz) z h
  simpa using h2

/-- `asParen` is monotone in the continuation. -/
theorem asParen_mono (k k2 : List Char → Bool)
    (hk : ∀ z, k z = true → k2 z = true)
    (w : List Char) (h : asParen k w = true) : asParen k2 w = true := by
  have h2 := asParen_append [] k k2 (fun z1 hz => by simpa using hk z1 hz) w h
  simpa using h2

/-- `cteAfter` is monotone in the continuation. -/
theorem cteAfter_mono (k k2 : List Char → Bool)
    (hk : ∀ z, k z = true → k2 z = true) :
    ∀ v, cteAfter k v = true → cteAfter k2 v = true := by
  intro v h
  have h2 := cteAfter_append [] k k2 (fun z1 hz => by simpa using hk z1 hz) v h
  simpa using h2

/-- The anchor body is monotone in the fuel. -/
theorem cteStarF_mono : ∀ f f2, f ≤ f2 → ∀ u, cteStarF f u = true → cteStarF f2 u = true := by
  intro f
  induction f with
  | zero => intro f2 _ u h; cases h
  | succ f ih =>
    intro f2 hle u h
    obtain ⟨f2p, rfl⟩ : ∃ g, f2 = g + 1 := ⟨f2 - 1, by omega⟩
    rw [cteStarF, Bool.or_eq_true] at h
    rw [cteStarF, Bool.or_eq_true]
    rcases h with h | h
    · exact Or.inl h
    · rw [Bool.and_eq_true] at h
      right
      rw [Bool.and_eq_true]
      refine ⟨h.1, ?_⟩
      cases hd : u.drop 4 with
      | nil => rw [hd] at h; exact absurd h.2 (by simp)
      | cons c v =>
        rw [hd] at h
        have h3 : (isSpaceChar c && cteAfter (cteStarF f) v) = true := h.2
        rw [Bool.and_eq_true] at h3
        show (isSpaceChar c && cteAfter (cteStarF f2p) v) = true
        rw [Bool.and_eq_true]
        exact ⟨h3.1, cteAfter_mono _ _ (fun z hz => ih f2p (by omega) z hz) v h3.2⟩

/-- A match of the anchor on whitespace-clean text starts with `SELECT` or
`WITH`. -/
theorem anchor_starts (t : List Char)
    (hh : ∀ c, t.head? = some c → isSpaceChar c = false)
    (h : anchorMatches t = true) :
    startsWithCI ['s','e','l','e','c','t'] t = true ∨
      startsWithCI ['w','i','t','h'] t = true := by
  unfold anchorMatches at h
  rw [dropWhile_eq_self_of_head _ _ hh] at h
  rw [cteStarF, Bool.or_eq_true] at h
  rcases h with h | h
  · unfold selectTail at h
    rw [Bool.and_eq_true] at h
    exact Or.inl h.1
  · rw [Bool.and_eq_true] at h
    exact Or.inr h.1

/-- The anchor is stable under appending text that starts with a non-word
character. -/
theorem anchorMatches_append (t e : List Char)
    (hh : ∀ c, t.head? = some c → isSpaceChar c = false)
    (he : ∀ c, e.head? = some c → isWordChar c = false)
    (h : anchorMatches t = true) : anchorMatches (t ++ e) = true := by
  have htne : t ≠ [] := by
    rintro rfl
    exact absurd h (by decide)
  unfold anchorMatches at h ⊢
  rw [dropWhile_eq_self_of_head _ _ hh] at h
  rw [dropWhile_eq_self_of_head _ _ (fun c hc => by
    rw [List.head?_append_of_ne_nil _ htne] at hc
    exact hh c hc)]
  exact cteStarF_mono (t.length + 1) ((t ++ e).length + 1)
    (by simp only [List.length_append]; omega) _
    (cteStarF_append e he (t.length + 1) t h)

/-- Text beginning with `SELECT` or `WITH` does not begin with a `sql`
language tag. -/
theorem sql_tag_mismatch (t : List Char)
    (h : startsWithCI ['s','e','l','e','c','t'] t = true ∨
      startsWithCI ['w','i','t','h'] t = true) :
    startsWithCI ['s','q','l'] t = false := by
  rcases h with h | h
  · obtain ⟨c0, t1, rfl, hc0, h1⟩ := startsWithCI_head _ _ _ h
    obtain ⟨c1, t2, rfl, hc1, _⟩ := startsWithCI_head _ _ _ h1
    have hq : charCI 'q' c1 = false := charCI_conflict 'e' 'q' c1 (by decide) hc1
    simp [startsWithCI, hq]
  · obtain ⟨c0, t1, rfl, hc0, _⟩ := startsWithCI_head _ _ _ h
    have hs : charCI 's' c0 = false := charCI_conflict 'w' 's' c0 (by decide) hc0
    simp [startsWithCI, hs]

/-! ## Helper lemmas: the forbidden-keyword scan under right extension -/

/-- A first-position mismatch refutes a prefix match. -/
theorem startsWithCI_head_false (k : Char) (kw : List Char) (c : Char) (rest : List Char)
    (h : charCI k c = false) : startsWithCI (k :: kw) (c :: rest) = false := by
  simp [startsWithCI, h]

/-- The characters of `" LIMIT "` followed by digits: on this alphabet every
forbidden keyword fails within its first two characters. -/
theorem safe_chars_block (c1 c2 : Char)
    (h1 : c1 ∈ ([' ','L','I','M','T','0','1','2','3','4','5','6','7','8','9'] : List Char))
    (h2 : c2 ∈ ([' ','L','I','M','T','0','1','2','3','4','5','6','7','8','9'] : List Char)) :
    (charCI 'i' c1 = false ∨ charCI 'n' c2 = false) ∧
      charCI 'u' c1 = false ∧ charCI 'd' c1 = false ∧ charCI 'a' c1 = false ∧
      (charCI 't' c1 = false ∨ charCI 'r' c2 = false) ∧ charCI 'p' c1 = false := by
  fin_cases h1 <;> fin_cases h2 <;> decide

/-- No forbidden keyword matches at any position of a text over the
`" LIMIT "`-plus-digits alphabet. -/
theorem forbHit_safe (prev : Option Char) (c : Char) (rest : List Char)
    (hc : c ∈ ([' ','L','I','M','T','0','1','2','3','4','5','6','7','8','9'] : List Char))
    (hrest : ∀ x ∈ rest, x ∈ ([' ','L','I','M','T','0','1','2','3','4','5','6','7','8','9'] : List Char)) :
    forbHit prev (c :: rest) = false := by
  cases rest with
  | nil =>
    unfold forbHit forbiddenKeywords
    simp [startsWithCI]
  | cons c2 rest2 =>
    have h2 : c2 ∈ ([' ','L','I','M','T','0','1','2','3','4','5','6','7','8','9'] : List Char) :=
      hrest c2 (by simp)
    obtain ⟨ki, ku, kd, ka, kt, kp⟩ := safe_chars_block c c2 hc h2
    unfold forbHit forbiddenKeywords
    simp only [List.any_cons, List.any_nil, Bool.or_eq_false_iff]
    refine ⟨?_, ?_, ?_, ?_, ?_, ?_, ?_, ?_, ?_, trivial⟩
    · rcases ki with h | h <;> simp [startsWithCI, h]
    · simp [startsWithCI, ku]
    · simp [startsWithCI, kd]
    · simp [startsWithCI, kd]
    · simp [startsWithCI, ka]
    · rcases kt with h | h <;> simp [startsWithCI, h]
    · simp [startsWithCI, ka]
    · simp [startsWithCI, kd]
    · simp [startsWithCI, kp]

/-- The scan never fires on a text over the safe alphabet. -/
theorem forbScan_safe (u : List Char)
    (hu : ∀ x ∈ u, x ∈ ([' ','L','I','M','T','0','1','2','3','4','5','6','7','8','9'] : List Char)) :
    ∀ prev, forbScan prev u = false := by
  induction u with
  | nil => intro prev; rfl
  | cons c rest ih =>
    intro prev
    rw [forbScan, Bool.or_eq_false_iff]
    exact ⟨forbHit_safe prev c rest (hu c (by simp)) (fun x hx => hu x (by simp [hx])),
      ih (fun x hx => hu x (by simp [hx])) (some c)⟩

/-- No keyword made of non-space characters can match across a junction that
continues with a space. -/
theorem startsWithCI_cross_space (kw : List Char)
    (hkw : ∀ kc ∈ kw, charCI kc ' ' = false) :
    ∀ v e1, v.length < kw.length → startsWithCI kw (v ++ ' ' :: e1) = false := by
  induction kw with
  | nil => intro v e1 h; simp at h
  | cons k kw1 ih =>
    intro v e1 hlen
    cases v with
    | nil =>
      rw [List.nil_append]
      simp [startsWithCI, hkw k (by simp)]
    | cons c v1 =>
      rw [List.cons_append]
      cases hkc : charCI k c with
      | false => simp [startsWithCI, hkc]
      | true =>
        simp only [startsWithCI, hkc, Bool.true_and]
        exact ih (fun kc h => hkw kc (by simp [h])) v1 e1 (by simpa using hlen)

/-- A position inside the original text that did not fire still does not fire
after appending `' ' :: e1`. -/
theorem forbHit_append_e (prev : Option Char) (v e1 : List Char) (_hv : v ≠ [])
    (h : forbHit prev v = false) : forbHit prev (v ++ ' ' :: e1) = false := by
  have hK : ∀ kw ∈ forbiddenKeywords, ∀ kc ∈ kw, charCI kc ' ' = false := by decide
  unfold forbHit at h ⊢
  rw [List.any_eq_false] at h ⊢
  intro kw hkw
  have horig := h kw hkw
  rw [Bool.not_eq_true] at horig ⊢
  by_cases hlen : kw.length ≤ v.length
  · rw [startsWithCI_append_inv kw v _ hlen, drop_append_le _ _ _ hlen]
    cases hvd : v.drop kw.length with
    | nil =>
      rw [hvd] at horig
      rw [List.nil_append]
      have hsp : boundaryOk (' ' :: e1) = true := by
        simp only [boundaryOk]
        decide
      rw [hsp]
      simpa [boundaryOk] using horig
    | cons d vd =>
      rw [hvd] at horig
      rw [List.cons_append]
      simpa [boundaryOk] using horig
  · push_neg at hlen
    rw [startsWithCI_cross_space kw (hK kw hkw) v e1 hlen]
    simp

/-- A whole scan that did not fire still does not fire after appending
`' ' :: e1`, provided the appended text alone never fires. -/
theorem forbScan_append_false (e1 : List Char)
    (hsuf : ∀ p2, forbScan p2 (' ' :: e1) = false) :
    ∀ t prev, forbScan prev t = false → forbScan prev (t ++ ' ' :: e1) = false := by
  intro t
  induction t with
  | nil => intro prev _; rw [List.nil_append]; exact hsuf prev
  | cons c t1 ih =>
    intro prev h
    rw [forbScan, Bool.or_eq_false_iff] at h
    rw [List.cons_append, forbScan, Bool.or_eq_false_iff]
    exact ⟨forbHit_append_e prev (c :: t1) e1 (by simp) h.1, ih (some c) h.2⟩

/-! ## Helper lemmas: the appended LIMIT clause is detected -/

/-- The appended suffix `" LIMIT <n>"` contains a `LIMIT <n>` clause. -/
theorem limitScan_suffix_base (cap : Nat) :
    ∀ prev, limitScan prev (limitSuffix cap) = true := by
  intro prev
  show limitScan prev (' ' :: 'L' :: 'I' :: 'M' :: 'I' :: 'T' :: ' ' :: natDigits cap) = true
  rw [limitScan, Bool.or_eq_true]
  right
  rw [limitScan, Bool.or_eq_true]
  left
  unfold limitHit
  rw [Bool.and_eq_true, Bool.and_eq_true]
  refine ⟨⟨rfl, rfl⟩, ?_⟩
  show (isSpaceChar ' ' &&
    (match (' ' :: natDigits cap).dropWhile isSpaceChar with
     | d :: _ => isDigitChar d
     | [] => false)) = true
  rw [List.dropWhile_cons_of_pos (by decide)]
  cases hds : natDigits cap with
  | nil => exact absurd hds (natDigits_ne_nil cap)
  | cons d ds1 =>
    have hdig := digit_facts d (natDigits_mem cap d (by rw [hds]; simp))
    rw [List.dropWhile_cons_of_neg (by simp [hdig.1])]
    show (isSpaceChar ' ' && isDigitChar d) = true
    rw [hdig.2.2.2]
    decide

/-- Appending `" LIMIT <n>"` to any text yields a text with a detected
`LIMIT` clause. -/
theorem limitScan_append_suffix (cap : Nat) :
    ∀ t prev, limitScan prev (t ++ limitSuffix cap) = true := by
  intro t
  induction t with
  | nil => intro prev; rw [List.nil_append]; exact limitScan_suffix_base cap prev
  | cons c t1 ih =>
    intro prev
    rw [List.cons_append, limitScan, Bool.or_eq_true]
    exact Or.inr (ih (some c))

/-! ## Helper lemmas: shape of an anchored stripped statement -/

/-- An anchored, whitespace-clean statement is nonempty, starts with a letter
of `SELECT` or `WITH` (hence neither whitespace nor a backquote), and does not
carry a leading `sql` language tag. -/
theorem cleanSql_core (t : List Char)
    (hthead : ∀ c, t.head? = some c → isSpaceChar c = false)
    (hanchor : anchorMatches t = true) :
    (∃ c0 t1, t = c0 :: t1) ∧
      (∀ c, t.head? = some c → isSpaceChar c = false ∧ c ≠ btChar) ∧
      startsWithCI ['s','q','l'] t = false ∧
      (startsWithCI ['s','e','l','e','c','t'] t = true ∨
        startsWithCI ['w','i','t','h'] t = true) := by
  have hstarts := anchor_starts t hthead hanchor
  have hsql3 := sql_tag_mismatch t hstarts
  rcases hstarts with h | h
  · obtain ⟨c0, t1, heq, hc0, -⟩ := startsWithCI_head _ _ _ h
    subst heq
    refine ⟨⟨c0, t1, rfl⟩, ?_, hsql3, Or.inl h⟩
    intro c hc
    obtain rfl : c0 = c := by simpa using hc
    refine ⟨?_, ?_⟩
    · exact charCI_letter_not_space 's' c0 hc0 (fun w hw => by
        rcases spaceChar_cases w hw with rfl | rfl | rfl | rfl | rfl | rfl <;> decide)
    · intro hb
      rw [hb] at hc0
      exact absurd hc0 (by decide)
  · obtain ⟨c0, t1, heq, hc0, -⟩ := startsWithCI_head _ _ _ h
    subst heq
    refine ⟨⟨c0, t1, rfl⟩, ?_, hsql3, Or.inr h⟩
    intro c hc
    obtain rfl : c0 = c := by simpa using hc
    refine ⟨?_, ?_⟩
    · exact charCI_letter_not_space 'w' c0 hc0 (fun w hw => by
        rcases spaceChar_cases w hw with rfl | rfl | rfl | rfl | rfl | rfl <;> decide)
    · intro hb
      rw [hb] at hc0
      exact absurd hc0 (by decide)

/-- C5, counterexample: re-running `sanitize_sql` on an already-accepted
output is *not* always the identity.  The input `SELECT a LIMIT 2; ;` is
accepted with normalized output `SELECT a LIMIT 2;` (the inner semicolon
survives because `rstrip(";")` runs before the final whitespace strip), and
re-running on that output strips the now-trailing semicolon, returning a
different statement. -/
theorem claim_C5_cex :
    sanitize_sql (some ("SELECT a LIMIT 2; ;".data)) 500 =
        (true, "SELECT a LIMIT 2;".data, "") ∧
      sanitize_sql (some ("SELECT a LIMIT 2;".data)) 500 =
        (true, "SELECT a LIMIT 2".data, "") ∧
      "SELECT a LIMIT 2;".data ≠ "SELECT a LIMIT 2".data := by
  refine ⟨?_, ?_, ?_⟩ <;> decide

/-- C5, amended: `sanitize_sql` is idempotent on accepted outputs that do not
end in a semicolon or a backquote: if some input is accepted under cap `cap`
with normalized output `s`, and `s`'s last character is neither `;` nor a
backquote, then `sanitize_sql` accepts `s` under the same cap and returns it
unchanged (in particular, no second `LIMIT` clause is appended).  The
excluded endings are exactly the ones the counterexample exhibits: a
re-run strips a trailing semicolon or backquote again. -/
theorem claim_C5_amended (sql : Option (List Char)) (cap : Nat) (s : List Char)
    (hacc : sanitize_sql sql cap = (true, s, ""))
    (hsemi : s.getLast? ≠ some ';') (hbt : s.getLast? ≠ some btChar) :
    sanitize_sql (some s) cap = (true, s, "") := by
  cases sql with
  | none => simp [sanitize_sql] at hacc
  | some sq =>
    simp only [sanitize_sql] at hacc
    split_ifs at hacc with h1 h2 h3 h4
    · simp at hacc
    · simp at hacc
    · simp at hacc
    · -- the stripped statement already carried a LIMIT clause: s = cleanSql sq
      rw [Prod.mk.injEq, Prod.mk.injEq] at hacc
      have hs : cleanSql sq = s := hacc.2.1
      have hanchor : anchorMatches (cleanSql sq) = true := by
        revert h2
        cases anchorMatches (cleanSql sq) <;> simp
      have hthead : ∀ c, (cleanSql sq).head? = some c → isSpaceChar c = false := by
        intro c hc
        exact pyStrip_head _ c hc
      have htlast : ∀ c, (cleanSql sq).getLast? = some c → isSpaceChar c = false := by
        intro c hc
        exact pyStrip_getLast _ c hc
      obtain ⟨⟨c0, t1, ht⟩, hhead2, hsql3, -⟩ := cleanSql_core (cleanSql sq) hthead hanchor
      rw [hs] at ht hhead2 hsql3 hanchor htlast h3 h4
      have hforbF : containsForbidden s = false := by
        revert h3
        cases containsForbidden s <;> simp
      have hsne : s ≠ [] := by rw [ht]; simp
      have hclean : cleanSql s = s :=
        cleanSql_eq_self s hhead2 hsql3 (fun c hc =>
          ⟨htlast c hc, fun hb => hbt (by rw [hc, hb]), fun hc2 => hsemi (by rw [hc, hc2])⟩)
      simp only [sanitize_sql, if_neg hsne, hclean, hanchor, hforbF, h4]
      simp
    · -- the LIMIT clause was appended: s = cleanSql sq ++ limitSuffix cap
      rw [Prod.mk.injEq, Prod.mk.injEq] at hacc
      have hs : cleanSql sq ++ limitSuffix cap = s := hacc.2.1
      have hanchor : anchorMatches (cleanSql sq) = true := by
        revert h2
        cases anchorMatches (cleanSql sq) <;> simp
      have hforbF : containsForbidden (cleanSql sq) = false := by
        revert h3
        cases containsForbidden (cleanSql sq) <;> simp
      have hthead : ∀ c, (cleanSql sq).head? = some c → isSpaceChar c = false := by
        intro c hc
        exact pyStrip_head _ c hc
      obtain ⟨⟨c0, t1, ht⟩, hhead2, hsql3, hstarts⟩ := cleanSql_core (cleanSql sq) hthead hanchor
      have htne : cleanSql sq ≠ [] := by rw [ht]; simp
      have hsuffhead : ∀ c, (limitSuffix cap).head? = some c → isWordChar c = false := by
        intro c hc
        rw [show (limitSuffix cap).head? = some ' ' from rfl] at hc
        rw [← Option.some.inj hc]
        decide
      have hshead : ∀ c, s.head? = some c → isSpaceChar c = false ∧ c ≠ btChar := by
        intro c hc
        apply hhead2
        rw [← hs, List.head?_append_of_ne_nil _ htne] at hc
        exact hc
      have hsne : s ≠ [] := by rw [← hs, ht]; simp
      have hssql : startsWithCI ['s','q','l'] s = false := by
        rw [← hs]
        refine sql_tag_mismatch _ ?_
        rcases hstarts with h | h
        · exact Or.inl (startsWithCI_append _ _ _ h)
        · exact Or.inr (startsWithCI_append _ _ _ h)
      have hlsne : limitSuffix cap ≠ [] := by
        show ([' ','L','I','M','I','T',' '] : List Char) ++ natDigits cap ≠ []
        simp
      have hslast : ∀ c, s.getLast? = some c →
          isSpaceChar c = false ∧ c ≠ btChar ∧ c ≠ ';' := by
        intro c hc
        rw [← hs, List.getLast?_append_of_ne_nil _ hlsne] at hc
        rw [show limitSuffix cap = ([' ','L','I','M','I','T',' '] : List Char) ++ natDigits cap
          from rfl, List.getLast?_append_of_ne_nil _ (natDigits_ne_nil cap)] at hc
        have hdig := digit_facts c (natDigits_mem cap c (List.mem_of_getLast?_eq_some hc))
        exact ⟨hdig.1, hdig.2.1, hdig.2.2.1⟩
      have hsanch : anchorMatches s = true := by
        rw [← hs]
        exact anchorMatches_append _ _ hthead hsuffhead hanchor
      have hsafe : ∀ x ∈ limitSuffix cap,
          x ∈ ([' ','L','I','M','T','0','1','2','3','4','5','6','7','8','9'] : List Char) := by
        intro x hx
        rw [show limitSuffix cap = ([' ','L','I','M','I','T',' '] : List Char) ++ natDigits cap
          from rfl, List.mem_append] at hx
        rcases hx with hx | hx
        · fin_cases hx <;> decide
        · have hm := natDigits_mem cap x hx
          fin_cases hm <;> decide
      have hsforb : containsForbidden s = false := by
        rw [← hs]
        exact forbScan_append_false _ (fun p2 => forbScan_safe _ hsafe p2) _ none hforbF
      have hslim : hasLimitClause s = true := by
        rw [← hs]
        exact limitScan_append_suffix cap _ none
      have hclean : cleanSql s = s := cleanSql_eq_self s hshead hssql hslast
      simp only [sanitize_sql, if_neg hsne, hclean, hsanch, hsforb, hslim]
      simp

/-- Witness for the amended C5: a statement without a `LIMIT` clause is
accepted with `LIMIT 500` appended, and re-running on the output returns it
unchanged. -/
theorem claim_C5_amended_witness :
    sanitize_sql (some ("SELECT name FROM users".data)) 500 =
        (true, "SELECT name FROM users LIMIT 500".data, "") ∧
      ("SELECT name FROM users LIMIT 500".data).getLast? ≠ some ';' ∧
      ("SELECT name FROM users LIMIT 500".data).getLast? ≠ some btChar ∧
      sanitize_sql (some ("SELECT name FROM users LIMIT 500".data)) 500 =
        (true, "SELECT name FROM users LIMIT 500".data, "") := by
  have h1 : sanitize_sql (some ("SELECT name FROM users".data)) 500 =
      (true, "SELECT name FROM users LIMIT 500".data, "") := by decide
  exact ⟨h1, by decide, by decide,
    claim_C5_amended (some ("SELECT name FROM users".data)) 500 _ h1 (by decide) (by decide)⟩
